import Mathlib

/-!
Verification of `doc/source/ext/generate_module_rst.py`: a documentation
generator that walks a library's object graph breadth-first and emits one
rst document per documented module.

The object graph is embedded shallowly: run-time objects are identified by
their Python `id`, modelled as elements of `Fin n`; the reflection facets
the script reads (`inspect.isfunction` / `inspect.isclass` /
`inspect.ismodule`, `__name__`, `__module__`, `type(m).__name__`,
the public `dir` entries, and a Dispatcher's `name`/`funcs`) are fields of
a `Graph` structure.  Attribute lists are given in `dir` order with the
underscore-prefixed names already dropped, exactly as
`get_public_attributes` produces them.

The BFS loop `traverse_module_bfs` is defined through a structurally
recursive fuel version `traverseF`; the exported definition supplies fuel
strictly above the loop's termination measure, and `traverseF_fuel_eq`
shows any sufficient fuel computes the same run, so the fuel is invisible
in the statements.  Instead of performing file I/O, the traversal returns
the write events in order: for each call of `write_to_rst_file` one
`ModuleDoc` carrying the node, its depth, its `__name__`, the identities
documented as components in it, and the concatenated rst content.  The
date formatting of `write_to_rst_file` is applied by `renderRun`.
-/

namespace GenRst

/-- Python's `p in s` substring test on the character lists of strings:
`leadsWith p s` is true when `p` is an initial segment of `s`. -/
def leadsWith : List Char → List Char → Bool
  | [], _ => true
  | _ :: _, [] => false
  | a :: as, b :: bs => a == b && leadsWith as bs

/-- `seqWithin p s` is true when `p` occurs contiguously inside `s`. -/

def seqWithin (p : List Char) : List Char → Bool
  | [] => leadsWith p []
  | c :: rest => leadsWith p (c :: rest) || seqWithin p rest

/-- Python's substring containment `p in s` for strings. -/

def strIn (p s : String) : Bool :=
  seqWithin p.data s.data

/-- The reflection kind of an object: `inspect.ismodule`, `inspect.isfunction`
and `inspect.isclass` are mutually exclusive type tests; `other` covers every
remaining object (in particular multipledispatch `Dispatcher` instances). -/

inductive ObjKind where
  | module
  | func
  | cls
  | other
deriving DecidableEq, Repr

/-- A reflected object graph with `n` object identities.  Each field records
what the script can observe about the object with a given identity:

* `kind` — which of the `inspect` type tests succeeds;
* `hasName` — whether `hasattr(node, '__name__')` holds;
* `nameOf` — the object's `__name__`;
* `moduleOf` — the object's `__module__` (read for functions and classes);
* `typeName` — `type(m).__name__` (the structural Dispatcher test);
* `attrs` — `get_public_attributes`: the objects bound to the non-underscore
  `dir` entries, in `dir` order (aliasing shows up as one identity occurring
  under several parents or several names);
* `dispName` — a Dispatcher's `name` attribute;
* `dispFuncs` — a Dispatcher's `funcs` mapping in iteration order: for each
  registered signature the list of argument type `__name__`s together with
  the implementation's `__module__` and `__name__`. -/

structure Graph (n : Nat) where
  kind : Fin n → ObjKind
  hasName : Fin n → Bool
  nameOf : Fin n → String
  moduleOf : Fin n → String
  typeName : Fin n → String
  attrs : Fin n → List (Fin n)
  dispName : Fin n → String
  dispFuncs : Fin n → List (List String × String × String)

/-- The `IGNORE_MODULES` exclusion set of the script. -/

def IGNORE_MODULES : List String :=
  ["gpflow.covariances.dispatch",
   "gpflow.conditionals.dispatch",
   "gpflow.expectations.dispatch",
   "gpflow.kullback_leiblers.dispatch",
   "gpflow.versions"]

/-- The `RST_LEVEL_SYMBOLS` list of heading underline characters. -/

def RST_LEVEL_SYMBOLS : List Char :=
  ['=', '-', '~', '"', '\'', '^']

/-- `is_documentable_module`: a module whose `__name__` contains `'gpflow'`
and is not in `IGNORE_MODULES`. -/

def is_documentable_module (g : Graph n) (m : Fin n) : Bool :=
  (g.kind m == ObjKind.module) && strIn "gpflow" (g.nameOf m) &&
    !(decide (g.nameOf m ∈ IGNORE_MODULES))

/-- `is_documentable_component`: the `if isfunction / elif isclass /
elif type(m).__name__ == 'Dispatcher'` chain of the script, in source order. -/

def is_documentable_component (g : Graph n) (m : Fin n) : Bool :=
  if g.kind m == ObjKind.func then
    strIn "gpflow" (g.moduleOf m) && !(decide (g.moduleOf m ∈ IGNORE_MODULES))
  else if g.kind m == ObjKind.cls then
    strIn "gpflow" (g.moduleOf m) && !(decide (g.moduleOf m ∈ IGNORE_MODULES))
  else if g.typeName m == "Dispatcher" then
    true
  else
    false

/-- `is_documentable`: component or module. -/

def is_documentable (g : Graph n) (m : Fin n) : Bool :=
  is_documentable_component g m || is_documentable_module g m

/-- `'sep'.join(parts)` of Python. -/

def joinWith (sep : String) : List String → String
  | [] => ""
  | [s] => s
  | s :: rest => s ++ sep ++ joinWith sep rest

/-- `name.split('.')[-1]` of Python. -/

def lastDotComponent (s : String) : String :=
  (s.splitOn ".").getLastD ""

/-- The `SPHINX_CLASS_STRING` template with `object_name` and `level`
substituted (the `var` argument passed by the script is unused by the
template). -/

def SPHINX_CLASS_STRING (object_name level : String) : String :=
  "\n" ++ object_name ++ "\n" ++ level ++
    "\n\n.. autoclass:: " ++ object_name ++
    "\n   :show-inheritance:\n   :members:\n"

/-- The `SPHINX_FUNC_STRING` template. -/

def SPHINX_FUNC_STRING (object_name level : String) : String :=
  "\n" ++ object_name ++ "\n" ++ level ++
    "\n\n.. autofunction:: " ++ object_name ++ "\n"

/-- The `SPHINX_MULTIDISPATCH_STRING` template. -/

def SPHINX_MULTIDISPATCH_STRING (object_name level content : String) : String :=
  "\n" ++ object_name ++ "\n" ++ level ++
    "\n\nThis function uses multiple dispatch, which will depend on the type of argument passed in:\n\n"
    ++ content ++ "\n"

/-- The `SPHINX_MULTIDISPATCH_COMPONENT_STRING` template. -/

def SPHINX_MULTIDISPATCH_COMPONENT_STRING (dispatch_name args true_name : String) : String :=
  "\n.. code-block:: python\n\n    " ++ dispatch_name ++ "( " ++ args ++
    " )\n    # dispatch to -> " ++ true_name ++
    "(...)\n\n\n.. autofunction:: " ++ true_name ++ "\n"

/-- The `SPHINX_INCLUDE_MODULE_STRING` template. -/

def SPHINX_INCLUDE_MODULE_STRING (name level module_last : String) : String :=
  "\n" ++ name ++ "\n" ++ level ++
    "\n.. toctree::\n   :maxdepth: 1\n\n   " ++ module_last ++ "/index\n"

/-- The fixed text of `SPHINX_FILE_STRING` before the `{date}` hole. -/

def sphinxFilePre (title : String) : String :=
  "==========\n" ++ title ++
    "\n========\n\n.. THIS IS AN AUTOGENERATED RST FILE\n.. GENERATED BY `generate_rst.py`\n.. DATE: "

/-- The fixed text of `SPHINX_FILE_STRING` after the `{date}` hole. -/

def sphinxFilePost (content : String) : String :=
  "\n\n\n" ++ content ++ "\n"

/-- The `SPHINX_FILE_STRING` template. -/

def SPHINX_FILE_STRING (title content date : String) : String :=
  sphinxFilePre title ++ date ++ sphinxFilePost content

/-- `RST_LEVEL_SYMBOLS[level]*6`.  Python raises `IndexError` for
`level ≥ 6`; the embedding totalises the out-of-range case with a
placeholder character — claim C9 records that the source leaves that case
undefined (`RST_LEVEL_SYMBOLS.get? level = none`). -/

def rstLevelUnderline (level : Nat) : String :=
  String.mk (List.replicate 6 (RST_LEVEL_SYMBOLS.getD level '?'))

/-- `get_multidispatch_string`'s `content_list`: one
`SPHINX_MULTIDISPATCH_COMPONENT_STRING` per entry of `funcs`, in order. -/

def mdBlocks (g : Graph n) (md_component module_ : Fin n) : List String :=
  (g.dispFuncs md_component).map (fun p =>
    SPHINX_MULTIDISPATCH_COMPONENT_STRING
      (g.nameOf module_ ++ "." ++ g.dispName md_component)
      (joinWith ", " p.1)
      (p.2.1 ++ "." ++ p.2.2))

/-- `get_multidispatch_string` (its `level` parameter receives the already
formatted underline string, as at its call site). -/

def get_multidispatch_string (g : Graph n) (md_component module_ : Fin n)
    (level : String) : String :=
  SPHINX_MULTIDISPATCH_STRING
    (g.nameOf module_ ++ "." ++ g.dispName md_component)
    level
    (joinWith "\n" (mdBlocks g md_component module_))

/-- `get_component_rst_string`: class, then function, then Dispatcher, in
source order; any other component renders as the empty string. -/

def get_component_rst_string (g : Graph n) (module_ component : Fin n)
    (level : Nat) : String :=
  let object_name := g.nameOf module_ ++ "." ++ g.nameOf component
  let level_underline := rstLevelUnderline level
  if g.kind component == ObjKind.cls then
    SPHINX_CLASS_STRING object_name level_underline
  else if g.kind component == ObjKind.func then
    SPHINX_FUNC_STRING object_name level_underline
  else if g.typeName component == "Dispatcher" then
    get_multidispatch_string g component module_ level_underline
  else
    ""

/-- `get_module_rst_string`. -/

def get_module_rst_string (g : Graph n) (module_ : Fin n) (level : Nat) : String :=
  SPHINX_INCLUDE_MODULE_STRING (g.nameOf module_) (rstLevelUnderline level)
    (lastDotComponent (g.nameOf module_))

/-- The body of `do_visit_module`'s `for` loop: the first child that is an
unvisited documentable module, or an unvisited documentable component whose
`__module__` contains `'__init__'` or contains the candidate module's
`__name__`, answers `true`; falling off the list answers `false`. -/

def doVisitScan (g : Graph n) (module_ : Fin n) (enqueued_items : List (Fin n)) :
    List (Fin n) → Bool
  | [] => false
  | child :: rest =>
    if is_documentable_module g child ∧ child ∉ enqueued_items then
      true
    else if is_documentable_component g child ∧ child ∉ enqueued_items ∧
        (strIn "__init__" (g.moduleOf child) ∨ strIn (g.nameOf module_) (g.moduleOf child)) then
      true
    else
      doVisitScan g module_ enqueued_items rest

/-- `do_visit_module`. -/

def do_visit_module (g : Graph n) (module_ : Fin n)
    (enqueued_items : List (Fin n)) : Bool :=
  doVisitScan g module_ enqueued_items (g.attrs module_)

/-- The state built by the `for child in get_public_attributes(node)` loop in
`traverse_module_bfs`: the `rst_components` and `rst_modules` lists (each
string paired with the child identity it documents, which the loop has in
hand when appending) and the final `enqueued_items`. -/

structure VisitResult (n : Nat) where
  comps : List (Fin n × String)
  mods : List (Fin n × String)
  enq : List (Fin n)
deriving DecidableEq, Repr

/-- The child-classification loop of `traverse_module_bfs`, translated
clause for clause: skip already enqueued identities; document components
immediately and mark them; link modules that pass `do_visit_module`
(evaluated against the current `enqueued_items`) and mark them.  The
modules recorded in `mods` are the ones the loop appends to the queue. -/

def visitChildren (g : Graph n) (node : Fin n) (level : Nat) :
    List (Fin n) → List (Fin n) → VisitResult n
  | [], enq => ⟨[], [], enq⟩
  | child :: rest, enq =>
    if child ∈ enq then
      visitChildren g node level rest enq
    else if is_documentable_component g child then
      let r := visitChildren g node level rest (child :: enq)
      ⟨(child, get_component_rst_string g node child level) :: r.comps, r.mods, r.enq⟩
    else if is_documentable_module g child then
      if do_visit_module g child enq then
        let r := visitChildren g node level rest (child :: enq)
        ⟨r.comps, (child, get_module_rst_string g child level) :: r.mods, r.enq⟩
      else
        visitChildren g node level rest enq
    else
      visitChildren g node level rest enq

/-- One write event of the traversal: the call
`write_to_rst_file(node.__name__, rst_content)` for a processed module,
together with the node's identity, its queue depth and the identities of the
components documented inside it (ghost data the loop has in scope). -/

structure ModuleDoc (n : Nat) where
  nodeId : Fin n
  level : Nat
  name : String
  compIds : List (Fin n)
  content : String
deriving DecidableEq, Repr

/-- How many of the `n` identities are not yet in `enqueued_items`; the
decreasing part of the termination measure of the BFS loop. -/

def countMissing (n : Nat) (enq : List (Fin n)) : Nat :=
  (List.finRange n).countP (fun i => decide (i ∉ enq))

/-- The `while queue:` loop of `traverse_module_bfs`, structurally recursive
on a fuel argument.  Each iteration pops the head, skips nodes without
`__name__` and non-documentable nodes, classifies the children of a
documentable module, appends the newly linked modules at depth `level + 1`
to the queue, and records a write event when `rst_content` is nonempty. -/

def traverseF (g : Graph n) : Nat → List (Fin n × Nat) → List (Fin n) → List (ModuleDoc n)
  | 0, _, _ => []
  | _ + 1, [], _ => []
  | fuel + 1, (node, level) :: queue, enq =>
    if g.hasName node = false then
      traverseF g fuel queue enq
    else if is_documentable_module g node then
      let r := visitChildren g node level (g.attrs node) enq
      let rst_content := joinWith "\n" (r.comps.map Prod.snd ++ r.mods.map Prod.snd)
      let rest := traverseF g fuel (queue ++ r.mods.map (fun m => (m.1, level + 1))) r.enq
      if rst_content = "" then rest
      else ⟨node, level, g.nameOf node, r.comps.map Prod.fst, rst_content⟩ :: rest
    else
      traverseF g fuel queue enq

/-- `traverse_module_bfs`: the fuel supplied strictly dominates the loop's
termination measure `queue.length + countMissing n enq`, and
`traverseF_fuel_eq` below shows the result does not depend on the choice of
sufficient fuel. -/

def traverse_module_bfs (g : Graph n) (queue : List (Fin n × Nat))
    (enq : List (Fin n)) : List (ModuleDoc n) :=
  traverseF g (queue.length + countMissing n enq + 1) queue enq

/-- `RST_PATH`, as configured at module load. -/

def RST_PATH : String := "source/"

/-- The path of the file written for a node by `write_to_rst_file`. -/

def rstFilePath (node_name : String) : String :=
  RST_PATH ++ "/" ++ (node_name.replace "." "/") ++ "/index.rst"

/-- One run of the script over a graph with a given `DATE_STRING`:
the files written, in order, as path-content pairs. -/

def renderRun (g : Graph n) (date : String) (queue : List (Fin n × Nat))
    (enq : List (Fin n)) : List (String × String) :=
  (traverse_module_bfs g queue enq).map (fun d =>
    (rstFilePath d.name, SPHINX_FILE_STRING d.name d.content date))

/-- The component identities documented across a list of write events, in
emission order. -/

def docIds : List (ModuleDoc n) → List (Fin n)
  | [] => []
  | d :: rest => d.compIds ++ docIds rest

def bfsQueueShape (q : List (Fin n × Nat)) : Prop :=
  List.Pairwise (fun a b => a.2 ≤ b.2 ∧ b.2 ≤ a.2 + 1) q

def exGraphAlias : Graph 5 where
  kind := ![.module, .module, .module, .module, .func]
  hasName := ![true, true, true, true, true]
  nameOf := !["gpflow", "gpflow.a", "gpflow.b", "gpflow.b.c", "X"]
  moduleOf := !["", "", "", "", "gpflow.b.c"]
  typeName := !["module", "module", "module", "module", "function"]
  attrs := ![[1, 2], [4], [3], [4], []]
  dispName := !["", "", "", "", ""]
  dispFuncs := ![[], [], [], [], []]

/-- Concrete graph: function `x` (identity 3) is defined in `gpflow.m1` and
re-exported by `gpflow.m2`; both modules are visited at depth 1. -/

def exGraphShallow : Graph 5 where
  kind := ![.module, .module, .module, .func, .func]
  hasName := ![true, true, true, true, true]
  nameOf := !["gpflow", "gpflow.m1", "gpflow.m2", "x", "y"]
  moduleOf := !["", "", "", "gpflow.m1", "gpflow.m2"]
  typeName := !["module", "module", "module", "function", "function"]
  attrs := ![[1, 2], [3], [3, 4], [], []]
  dispName := !["", "", "", "", ""]
  dispFuncs := ![[], [], [], [], []]



/-- Concrete graph: identity 1 is a multipledispatch `Dispatcher` (declared,
as it happens, in an excluded dispatch module) with two registered
signatures, public in module `gpflow.conditionals`. -/

def exGraphDispatch : Graph 2 where
  kind := ![.module, .other]
  hasName := ![true, true]
  nameOf := !["gpflow.conditionals", "conditional"]
  moduleOf := !["", "gpflow.covariances.dispatch"]
  typeName := !["module", "Dispatcher"]
  attrs := ![[1], []]
  dispName := !["", "conditional"]
  dispFuncs := ![[],
    [(["object", "InducingPoints"], "gpflow.conditionals.conditionals", "_conditional"),
     (["object", "SharedIndependentInducingVariables"],
       "gpflow.conditionals.multioutput.conditionals", "shared_independent_conditional")]]

/-- Concrete graph: identity 0 is a class whose metaclass is named
`Dispatcher` and whose `__module__` lies outside the library namespace. -/

def exGraphClassDispatcher : Graph 1 where
  kind := ![.cls]
  hasName := ![true]
  nameOf := !["Weird"]
  moduleOf := !["somelib.registry"]
  typeName := !["Dispatcher"]
  attrs := ![[]]
  dispName := ![""]
  dispFuncs := ![[]]

/-- Concrete graph: identity 0 is a class whose metaclass is named
`Dispatcher`, declared in one of the `IGNORE_MODULES`. -/

def exGraphIgnoredDispatcher : Graph 1 where
  kind := ![.cls]
  hasName := ![true]
  nameOf := !["Reg"]
  moduleOf := !["gpflow.covariances.dispatch"]
  typeName := !["Dispatcher"]
  attrs := ![[]]
  dispName := ![""]
  dispFuncs := ![[]]

/-- Concrete graph: module `gpflow.kernels` re-exports a function declared in
the root package `gpflow` and has nothing else public. -/

def exGraphRootExport : Graph 2 where
  kind := ![.module, .func]
  hasName := ![true, true]
  nameOf := !["gpflow.kernels", "set_trainable"]
  moduleOf := !["", "gpflow"]
  typeName := !["module", "function"]
  attrs := ![[1], []]
  dispName := !["", ""]
  dispFuncs := ![[], []]

/-- Concrete graph: identity 1 lacks a `__name__` attribute. -/

def exGraphNoName : Graph 2 where
  kind := ![.module, .other]
  hasName := ![true, false]
  nameOf := !["gpflow", ""]
  moduleOf := !["", ""]
  typeName := !["module", "object"]
  attrs := ![[], []]
  dispName := !["", ""]
  dispFuncs := ![[], []]



/-- C3 (amended): `is_documentable_component` is true iff the object is a
function or class declared in a `gpflow`-named, non-excluded module, or it is
neither a function nor a class and its run-time type is named `Dispatcher`.
The branch order of the source gives the function/class tests precedence, so
the type-name test only reaches objects that are neither. -/

lemma strLengthPos {s : String} (h : s ≠ "") : 0 < s.length := by
  cases s with
  | mk data =>
    cases data with
    | nil => simp at h
    | cons a as => simp [String.length]

lemma strNeEmptyOfPos {s : String} (h : 0 < s.length) : s ≠ "" := by
  intro he
  rw [he] at h
  simp [String.length] at h

lemma sphinx_class_ne (a l : String) : SPHINX_CLASS_STRING a l ≠ "" := by
  apply strNeEmptyOfPos
  simp [SPHINX_CLASS_STRING, String.length_append]
  have h0 : 0 < ("\n" : String).length := by decide
  tauto

lemma sphinx_func_ne (a l : String) : SPHINX_FUNC_STRING a l ≠ "" := by
  apply strNeEmptyOfPos
  simp [SPHINX_FUNC_STRING, String.length_append]
  have h0 : 0 < ("\n" : String).length := by decide
  tauto

lemma sphinx_md_ne (a l c : String) : SPHINX_MULTIDISPATCH_STRING a l c ≠ "" := by
  apply strNeEmptyOfPos
  simp [SPHINX_MULTIDISPATCH_STRING, String.length_append]
  have h0 : 0 < ("\n" : String).length := by decide
  tauto

lemma sphinx_include_ne (a l m : String) : SPHINX_INCLUDE_MODULE_STRING a l m ≠ "" := by
  apply strNeEmptyOfPos
  simp [SPHINX_INCLUDE_MODULE_STRING, String.length_append]
  have h0 : 0 < ("/index\n" : String).length := by decide
  tauto

lemma joinWith_length_ge (sep : String) (parts : List String) :
    ∀ p ∈ parts, p.length ≤ (joinWith sep parts).length := by
  induction parts with
  | nil => simp
  | cons x t ih =>
    intro p hp
    cases t with
    | nil =>
      simp at hp
      simp [joinWith, hp]
    | cons y s =>
      rw [List.mem_cons] at hp
      have hx : joinWith sep (x :: y :: s) = x ++ sep ++ joinWith sep (y :: s) := rfl
      rw [hx, String.length_append, String.length_append]
      rcases hp with rfl | hp
      · omega
      · have := ih p hp
        omega

lemma joinWith_ne_of_mem (sep : String) (parts : List String) {p : String}
    (hp : p ∈ parts) (hne : p ≠ "") : joinWith sep parts ≠ "" := by
  apply strNeEmptyOfPos
  have h1 := strLengthPos hne
  have h2 := joinWith_length_ge sep parts p hp
  omega

/-- A documentable component always falls into one of the three rendering
branches, so its rst fragment is never empty. -/

lemma get_component_rst_string_ne (g : Graph n) (node child : Fin n) (level : Nat)
    (h : is_documentable_component g child = true) :
    get_component_rst_string g node child level ≠ "" := by
  cases hk : g.kind child with
  | cls =>
    simp only [get_component_rst_string, hk]
    exact sphinx_class_ne _ _
  | func =>
    simp only [get_component_rst_string, hk]
    exact sphinx_func_ne _ _
  | module =>
    simp only [is_documentable_component, hk] at h
    simp only [get_component_rst_string, get_multidispatch_string, hk]
    by_cases hd : g.typeName child == "Dispatcher"
    · simp only [hd]
      simp
      exact sphinx_md_ne _ _ _
    · simp [hd] at h
  | other =>
    simp only [is_documentable_component, hk] at h
    simp only [get_component_rst_string, get_multidispatch_string, hk]
    by_cases hd : g.typeName child == "Dispatcher"
    · simp only [hd]
      simp
      exact sphinx_md_ne _ _ _
    · simp [hd] at h

lemma get_module_rst_string_ne (g : Graph n) (child : Fin n) (level : Nat) :
    get_module_rst_string g child level ≠ "" := by
  unfold get_module_rst_string
  exact sphinx_include_ne _ _ _

lemma countP_mono_imp {α : Type} {l : List α} {p q : α → Bool}
    (h : ∀ a, p a = true → q a = true) : l.countP p ≤ l.countP q := by
  induction l with
  | nil => simp
  | cons b t ih =>
    rw [List.countP_cons, List.countP_cons]
    by_cases hb : p b = true
    · rw [if_pos hb, if_pos (h b hb)]
      omega
    · rw [if_neg hb]
      split <;> omega

lemma countP_lt_of_mem {α : Type} {l : List α} {p q : α → Bool}
    (hmono : ∀ x, p x = true → q x = true) {a : α} (ha : a ∈ l)
    (hpa : p a = false) (hqa : q a = true) : l.countP p < l.countP q := by
  induction l with
  | nil => simp at ha
  | cons b t ih =>
    rw [List.countP_cons, List.countP_cons]
    rcases List.mem_cons.mp ha with rfl | hat
    · rw [hpa, if_neg (by simp), if_pos hqa]
      have := countP_mono_imp (l := t) hmono
      omega
    · have h1 := ih hat
      by_cases hb : p b = true
      · rw [if_pos hb, if_pos (hmono b hb)]
        omega
      · rw [if_neg hb]
        split <;> omega

lemma countMissing_cons_le (n : Nat) (a : Fin n) (enq : List (Fin n)) :
    countMissing n (a :: enq) ≤ countMissing n enq := by
  apply countP_mono_imp
  intro x hx
  simp only [decide_eq_true_eq] at hx ⊢
  intro hmem
  exact hx (List.mem_cons_of_mem a hmem)

lemma countMissing_cons_lt (n : Nat) (a : Fin n) (enq : List (Fin n))
    (h : a ∉ enq) : countMissing n (a :: enq) < countMissing n enq := by
  apply countP_lt_of_mem (a := a)
  · intro x hx
    simp only [decide_eq_true_eq] at hx ⊢
    intro hmem
    exact hx (List.mem_cons_of_mem a hmem)
  · exact List.mem_finRange a
  · simp
  · simpa using h

lemma visitChildren_enq_mono (g : Graph n) (node : Fin n) (level : Nat) :
    ∀ (cs enq : List (Fin n)) (i : Fin n), i ∈ enq →
      i ∈ (visitChildren g node level cs enq).enq := by
  intro cs
  induction cs with
  | nil =>
    intro enq i hi
    simpa [visitChildren] using hi
  | cons child rest ih =>
    intro enq i hi
    by_cases h1 : child ∈ enq
    · simp only [visitChildren, if_pos h1]
      exact ih enq i hi
    · by_cases h2 : is_documentable_component g child = true
      · simp only [visitChildren, if_neg h1, h2, if_pos rfl]
        exact ih (child :: enq) i (List.mem_cons_of_mem child hi)
      · rw [Bool.not_eq_true] at h2
        by_cases h3 : is_documentable_module g child = true
        · by_cases h4 : do_visit_module g child enq = true
          · simp only [visitChildren, if_neg h1, h2, h3, h4]
            simp only [Bool.false_eq_true, if_false, if_pos rfl]
            exact ih (child :: enq) i (List.mem_cons_of_mem child hi)
          · rw [Bool.not_eq_true] at h4
            simp only [visitChildren, if_neg h1, h2, h3, h4]
            simp only [Bool.false_eq_true, if_false, if_pos rfl]
            exact ih enq i hi
        · rw [Bool.not_eq_true] at h3
          simp only [visitChildren, if_neg h1, h2, h3]
          simp only [Bool.false_eq_true, if_false]
          exact ih enq i hi

lemma visitChildren_ids_spec (g : Graph n) (node : Fin n) (level : Nat) :
    ∀ (cs enq : List (Fin n)),
      (∀ i ∈ (visitChildren g node level cs enq).enq, i ∈ enq ∨ i ∈ cs) ∧
      ((visitChildren g node level cs enq).comps.map Prod.fst ++
        (visitChildren g node level cs enq).mods.map Prod.fst).Nodup ∧
      (∀ i ∈ (visitChildren g node level cs enq).comps.map Prod.fst ++
        (visitChildren g node level cs enq).mods.map Prod.fst,
        i ∉ enq ∧ i ∈ (visitChildren g node level cs enq).enq) := by
  intro cs
  induction cs with
  | nil =>
    intro enq
    refine ⟨?_, ?_, ?_⟩ <;> simp [visitChildren]
  | cons child rest ih =>
    intro enq
    by_cases h1 : child ∈ enq
    · simp only [visitChildren, if_pos h1]
      obtain ⟨ih1, ih2, ih3⟩ := ih enq
      refine ⟨?_, ih2, ih3⟩
      intro i hi
      rcases ih1 i hi with h | h
      · exact Or.inl h
      · exact Or.inr (List.mem_cons_of_mem child h)
    · by_cases h2 : is_documentable_component g child = true
      · simp only [visitChildren, if_neg h1, h2, if_pos rfl]
        obtain ⟨ih1, ih2, ih3⟩ := ih (child :: enq)
        have hch : child ∈ (visitChildren g node level rest (child :: enq)).enq :=
          visitChildren_enq_mono g node level rest (child :: enq) child (List.mem_cons_self _ _)
        refine ⟨?_, ?_, ?_⟩
        · intro i hi
          rcases ih1 i hi with h | h
          · rcases List.mem_cons.mp h with rfl | h
            · exact Or.inr (List.mem_cons_self _ _)
            · exact Or.inl h
          · exact Or.inr (List.mem_cons_of_mem child h)
        · exact List.nodup_cons.mpr
            ⟨fun hmem => (ih3 child hmem).1 (List.mem_cons_self _ _), ih2⟩
        · intro i hi
          rcases List.mem_cons.mp hi with rfl | hi
          · exact ⟨h1, hch⟩
          · obtain ⟨ha, hb⟩ := ih3 i hi
            exact ⟨fun hc => ha (List.mem_cons_of_mem child hc), hb⟩
      · rw [Bool.not_eq_true] at h2
        by_cases h3 : is_documentable_module g child = true
        · by_cases h4 : do_visit_module g child enq = true
          · simp only [visitChildren, if_neg h1, h2, h3, h4]
            simp only [Bool.false_eq_true, if_false, if_pos rfl]
            obtain ⟨ih1, ih2, ih3⟩ := ih (child :: enq)
            have hch : child ∈ (visitChildren g node level rest (child :: enq)).enq :=
              visitChildren_enq_mono g node level rest (child :: enq) child (List.mem_cons_self _ _)
            refine ⟨?_, ?_, ?_⟩
            · intro i hi
              rcases ih1 i hi with h | h
              · rcases List.mem_cons.mp h with rfl | h
                · exact Or.inr (List.mem_cons_self _ _)
                · exact Or.inl h
              · exact Or.inr (List.mem_cons_of_mem child h)
            · exact List.nodup_middle.mpr (List.nodup_cons.mpr
                ⟨fun hmem => (ih3 child hmem).1 (List.mem_cons_self _ _), ih2⟩)
            · intro i hi
              rcases List.mem_append.mp hi with hi' | hi'
              · obtain ⟨ha, hb⟩ := ih3 i (List.mem_append_left _ hi')
                exact ⟨fun hc => ha (List.mem_cons_of_mem child hc), hb⟩
              · rcases List.mem_cons.mp hi' with rfl | hi''
                · exact ⟨h1, hch⟩
                · obtain ⟨ha, hb⟩ := ih3 i (List.mem_append_right _ hi'')
                  exact ⟨fun hc => ha (List.mem_cons_of_mem child hc), hb⟩
          · rw [Bool.not_eq_true] at h4
            simp only [visitChildren, if_neg h1, h2, h3, h4]
            simp only [Bool.false_eq_true, if_false, if_pos rfl]
            obtain ⟨ih1, ih2, ih3⟩ := ih enq
            refine ⟨?_, ih2, ih3⟩
            intro i hi
            rcases ih1 i hi with h | h
            · exact Or.inl h
            · exact Or.inr (List.mem_cons_of_mem child h)
        · rw [Bool.not_eq_true] at h3
          simp only [visitChildren, if_neg h1, h2, h3]
          simp only [Bool.false_eq_true, if_false]
          obtain ⟨ih1, ih2, ih3⟩ := ih enq
          refine ⟨?_, ih2, ih3⟩
          intro i hi
          rcases ih1 i hi with h | h
          · exact Or.inl h
          · exact Or.inr (List.mem_cons_of_mem child h)

lemma visitChildren_measure (g : Graph n) (node : Fin n) (level : Nat) :
    ∀ (cs enq : List (Fin n)),
      (visitChildren g node level cs enq).mods.length +
        countMissing n (visitChildren g node level cs enq).enq ≤
        countMissing n enq := by
  intro cs
  induction cs with
  | nil =>
    intro enq
    simp [visitChildren]
  | cons child rest ih =>
    intro enq
    by_cases h1 : child ∈ enq
    · simp only [visitChildren, if_pos h1]
      exact ih enq
    · by_cases h2 : is_documentable_component g child = true
      · simp only [visitChildren, if_neg h1, h2, if_pos rfl]
        have := ih (child :: enq)
        have hle := countMissing_cons_le n child enq
        exact le_trans this hle
      · rw [Bool.not_eq_true] at h2
        by_cases h3 : is_documentable_module g child = true
        · by_cases h4 : do_visit_module g child enq = true
          · simp only [visitChildren, if_neg h1, h2, h3, h4]
            simp only [Bool.false_eq_true, if_false, if_pos rfl]
            have hih := ih (child :: enq)
            have hlt := countMissing_cons_lt n child enq h1
            show ((child, get_module_rst_string g child level) ::
                (visitChildren g node level rest (child :: enq)).mods).length +
                countMissing n (visitChildren g node level rest (child :: enq)).enq ≤
                countMissing n enq
            rw [List.length_cons]
            omega
          · rw [Bool.not_eq_true] at h4
            simp only [visitChildren, if_neg h1, h2, h3, h4]
            simp only [Bool.false_eq_true, if_false, if_pos rfl]
            exact ih enq
        · rw [Bool.not_eq_true] at h3
          simp only [visitChildren, if_neg h1, h2, h3]
          simp only [Bool.false_eq_true, if_false]
          exact ih enq

lemma visitChildren_strings (g : Graph n) (node : Fin n) (level : Nat) :
    ∀ (cs enq : List (Fin n)),
      (∀ p ∈ (visitChildren g node level cs enq).comps, p.1 ∈ cs ∧ p.2 ≠ "") ∧
      (∀ p ∈ (visitChildren g node level cs enq).mods, p.2 ≠ "") := by
  intro cs
  induction cs with
  | nil =>
    intro enq
    constructor <;> simp [visitChildren]
  | cons child rest ih =>
    intro enq
    by_cases h1 : child ∈ enq
    · simp only [visitChildren, if_pos h1]
      obtain ⟨ihc, ihm⟩ := ih enq
      refine ⟨fun p hp => ⟨List.mem_cons_of_mem child (ihc p hp).1, (ihc p hp).2⟩, ihm⟩
    · by_cases h2 : is_documentable_component g child = true
      · simp only [visitChildren, if_neg h1, h2, if_pos rfl]
        obtain ⟨ihc, ihm⟩ := ih (child :: enq)
        refine ⟨?_, ihm⟩
        intro p hp
        rcases List.mem_cons.mp hp with rfl | hp
        · exact ⟨List.mem_cons_self _ _, get_component_rst_string_ne g node child level h2⟩
        · exact ⟨List.mem_cons_of_mem child (ihc p hp).1, (ihc p hp).2⟩
      · rw [Bool.not_eq_true] at h2
        by_cases h3 : is_documentable_module g child = true
        · by_cases h4 : do_visit_module g child enq = true
          · simp only [visitChildren, if_neg h1, h2, h3, h4]
            simp only [Bool.false_eq_true, if_false, if_pos rfl]
            obtain ⟨ihc, ihm⟩ := ih (child :: enq)
            refine ⟨fun p hp => ⟨List.mem_cons_of_mem child (ihc p hp).1, (ihc p hp).2⟩, ?_⟩
            intro p hp
            rcases List.mem_cons.mp hp with rfl | hp
            · exact get_module_rst_string_ne g child level
            · exact ihm p hp
          · rw [Bool.not_eq_true] at h4
            simp only [visitChildren, if_neg h1, h2, h3, h4]
            simp only [Bool.false_eq_true, if_false, if_pos rfl]
            obtain ⟨ihc, ihm⟩ := ih enq
            exact ⟨fun p hp => ⟨List.mem_cons_of_mem child (ihc p hp).1, (ihc p hp).2⟩, ihm⟩
        · rw [Bool.not_eq_true] at h3
          simp only [visitChildren, if_neg h1, h2, h3]
          simp only [Bool.false_eq_true, if_false]
          obtain ⟨ihc, ihm⟩ := ih enq
          exact ⟨fun p hp => ⟨List.mem_cons_of_mem child (ihc p hp).1, (ihc p hp).2⟩, ihm⟩

lemma visitChildren_nil_of_empty (g : Graph n) (node : Fin n) (level : Nat) :
    ∀ (cs enq : List (Fin n)),
      (visitChildren g node level cs enq).comps = [] →
      (visitChildren g node level cs enq).mods = [] →
      (visitChildren g node level cs enq).enq = enq := by
  intro cs
  induction cs with
  | nil =>
    intro enq _ _
    rfl
  | cons child rest ih =>
    intro enq hc hm
    by_cases h1 : child ∈ enq
    · simp only [visitChildren, if_pos h1] at hc hm ⊢
      exact ih enq hc hm
    · by_cases h2 : is_documentable_component g child = true
      · simp only [visitChildren, if_neg h1, h2, if_pos rfl] at hc
        exact absurd hc (List.cons_ne_nil _ _)
      · rw [Bool.not_eq_true] at h2
        by_cases h3 : is_documentable_module g child = true
        · by_cases h4 : do_visit_module g child enq = true
          · simp only [visitChildren, if_neg h1, h2, h3, h4] at hm
            simp only [Bool.false_eq_true, if_false, if_pos rfl] at hm
            exact absurd hm (List.cons_ne_nil _ _)
          · rw [Bool.not_eq_true] at h4
            simp only [visitChildren, if_neg h1, h2, h3, h4] at hc hm ⊢
            simp only [Bool.false_eq_true, if_false, if_pos rfl] at hc hm ⊢
            exact ih enq hc hm
        · rw [Bool.not_eq_true] at h3
          simp only [visitChildren, if_neg h1, h2, h3] at hc hm ⊢
          simp only [Bool.false_eq_true, if_false] at hc hm ⊢
          exact ih enq hc hm

lemma visitChildren_documents (g : Graph n) (node : Fin n) (level : Nat) :
    ∀ (cs enq : List (Fin n)) (x : Fin n), x ∈ cs → x ∉ enq →
      is_documentable_component g x = true →
      x ∈ (visitChildren g node level cs enq).comps.map Prod.fst := by
  intro cs
  induction cs with
  | nil =>
    intro enq x hx _ _
    simp at hx
  | cons child rest ih =>
    intro enq x hx hxe hxc
    by_cases h1 : child ∈ enq
    · simp only [visitChildren, if_pos h1]
      rcases List.mem_cons.mp hx with rfl | hx'
      · exact absurd h1 hxe
      · exact ih enq x hx' hxe hxc
    · by_cases h2 : is_documentable_component g child = true
      · simp only [visitChildren, if_neg h1, h2, if_pos rfl]
        rcases List.mem_cons.mp hx with rfl | hx'
        · exact List.mem_cons_self _ _
        · by_cases hxch : x = child
          · subst hxch
            exact List.mem_cons_self _ _
          · have : x ∉ child :: enq := by
              intro hmem
              rcases List.mem_cons.mp hmem with h | h
              · exact hxch h
              · exact hxe h
            exact List.mem_cons_of_mem child (ih (child :: enq) x hx' this hxc)
      · rw [Bool.not_eq_true] at h2
        rcases List.mem_cons.mp hx with rfl | hx'
        · rw [hxc] at h2
          exact absurd h2 (by simp)
        · by_cases h3 : is_documentable_module g child = true
          · by_cases h4 : do_visit_module g child enq = true
            · simp only [visitChildren, if_neg h1, h2, h3, h4]
              simp only [Bool.false_eq_true, if_false, if_pos rfl]
              by_cases hxch : x = child
              · subst hxch
                rw [hxc] at h2
                exact absurd h2 (by simp)
              · have : x ∉ child :: enq := by
                  intro hmem
                  rcases List.mem_cons.mp hmem with h | h
                  · exact hxch h
                  · exact hxe h
                exact ih (child :: enq) x hx' this hxc
            · rw [Bool.not_eq_true] at h4
              simp only [visitChildren, if_neg h1, h2, h3, h4]
              simp only [Bool.false_eq_true, if_false, if_pos rfl]
              exact ih enq x hx' hxe hxc
          · rw [Bool.not_eq_true] at h3
            simp only [visitChildren, if_neg h1, h2, h3]
            simp only [Bool.false_eq_true, if_false]
            exact ih enq x hx' hxe hxc

lemma traverseF_fuel_eq (g : Graph n) :
    ∀ (f1 f2 : Nat) (q : List (Fin n × Nat)) (enq : List (Fin n)),
      q.length + countMissing n enq < f1 → q.length + countMissing n enq < f2 →
      traverseF g f1 q enq = traverseF g f2 q enq := by
  intro f1
  induction f1 with
  | zero =>
    intro f2 q enq h1 _
    omega
  | succ f1 ih =>
    intro f2 q enq h1 h2
    cases f2 with
    | zero => omega
    | succ f2 =>
      cases q with
      | nil => rfl
      | cons hd queue =>
        obtain ⟨node, level⟩ := hd
        rw [List.length_cons] at h1 h2
        simp only [traverseF]
        by_cases hn : g.hasName node = false
        · rw [if_pos hn, if_pos hn]
          exact ih f2 queue enq (by omega) (by omega)
        · rw [if_neg hn, if_neg hn]
          by_cases hm : is_documentable_module g node = true
          · rw [if_pos hm, if_pos hm]
            have hmeas := visitChildren_measure g node level (g.attrs node) enq
            have hrec : traverseF g f1
                (queue ++ (visitChildren g node level (g.attrs node) enq).mods.map
                  (fun m => (m.1, level + 1)))
                (visitChildren g node level (g.attrs node) enq).enq =
                traverseF g f2
                (queue ++ (visitChildren g node level (g.attrs node) enq).mods.map
                  (fun m => (m.1, level + 1)))
                (visitChildren g node level (g.attrs node) enq).enq := by
              apply ih
              · rw [List.length_append, List.length_map]
                omega
              · rw [List.length_append, List.length_map]
                omega
            rw [hrec]
          · rw [if_neg hm, if_neg hm]
            exact ih f2 queue enq (by omega) (by omega)

lemma traverse_eq_traverseF (g : Graph n) (q : List (Fin n × Nat)) (enq : List (Fin n))
    (f : Nat) (hf : q.length + countMissing n enq < f) :
    traverse_module_bfs g q enq = traverseF g f q enq := by
  unfold traverse_module_bfs
  exact traverseF_fuel_eq g _ f q enq (by omega) hf



/-- Popping a node without `__name__` changes nothing: the run continues as
if the entry had never been dequeued. -/

lemma traverse_cons_noname (g : Graph n) (node : Fin n) (level : Nat)
    (queue : List (Fin n × Nat)) (enq : List (Fin n))
    (h : g.hasName node = false) :
    traverse_module_bfs g ((node, level) :: queue) enq =
      traverse_module_bfs g queue enq := by
  have h0 : traverse_module_bfs g ((node, level) :: queue) enq =
      traverseF g ((queue.length + countMissing n enq + 1) + 1)
        ((node, level) :: queue) enq := by
    apply traverse_eq_traverseF
    rw [List.length_cons]
    omega
  rw [h0]
  simp only [traverseF, if_pos h]
  rfl

/-- Popping a node that has a name but is not a documentable module changes
nothing. -/

lemma traverse_cons_skip (g : Graph n) (node : Fin n) (level : Nat)
    (queue : List (Fin n × Nat)) (enq : List (Fin n))
    (hn : g.hasName node = true) (hm : is_documentable_module g node = false) :
    traverse_module_bfs g ((node, level) :: queue) enq =
      traverse_module_bfs g queue enq := by
  have h0 : traverse_module_bfs g ((node, level) :: queue) enq =
      traverseF g ((queue.length + countMissing n enq + 1) + 1)
        ((node, level) :: queue) enq := by
    apply traverse_eq_traverseF
    rw [List.length_cons]
    omega
  rw [h0]
  simp only [traverseF, hn, hm]
  simp only [Bool.true_eq_false, if_false, Bool.false_eq_true]
  rfl

/-- Processing a documentable module: classify the children, append the newly
linked modules to the queue at the next depth, and emit a write event exactly
when the concatenated content is nonempty. -/

lemma traverse_cons_module (g : Graph n) (node : Fin n) (level : Nat)
    (queue : List (Fin n × Nat)) (enq : List (Fin n))
    (hn : g.hasName node = true) (hm : is_documentable_module g node = true) :
    traverse_module_bfs g ((node, level) :: queue) enq =
      (if joinWith "\n" ((visitChildren g node level (g.attrs node) enq).comps.map Prod.snd ++
          (visitChildren g node level (g.attrs node) enq).mods.map Prod.snd) = "" then
        traverse_module_bfs g
          (queue ++ (visitChildren g node level (g.attrs node) enq).mods.map
            (fun m => (m.1, level + 1)))
          (visitChildren g node level (g.attrs node) enq).enq
      else
        ⟨node, level, g.nameOf node,
          (visitChildren g node level (g.attrs node) enq).comps.map Prod.fst,
          joinWith "\n" ((visitChildren g node level (g.attrs node) enq).comps.map Prod.snd ++
            (visitChildren g node level (g.attrs node) enq).mods.map Prod.snd)⟩ ::
          traverse_module_bfs g
            (queue ++ (visitChildren g node level (g.attrs node) enq).mods.map
              (fun m => (m.1, level + 1)))
            (visitChildren g node level (g.attrs node) enq).enq) := by
  have h0 : traverse_module_bfs g ((node, level) :: queue) enq =
      traverseF g ((queue.length + countMissing n enq + 1) + 1)
        ((node, level) :: queue) enq := by
    apply traverse_eq_traverseF
    rw [List.length_cons]
    omega
  rw [h0]
  simp only [traverseF, hn, hm]
  simp only [Bool.true_eq_false, if_false, if_pos rfl]
  have hrec : traverseF g (queue.length + countMissing n enq + 1)
      (queue ++ (visitChildren g node level (g.attrs node) enq).mods.map
        (fun m => (m.1, level + 1)))
      (visitChildren g node level (g.attrs node) enq).enq =
      traverse_module_bfs g
        (queue ++ (visitChildren g node level (g.attrs node) enq).mods.map
          (fun m => (m.1, level + 1)))
        (visitChildren g node level (g.attrs node) enq).enq := by
    symm
    apply traverse_eq_traverseF
    rw [List.length_append, List.length_map]
    have := visitChildren_measure g node level (g.attrs node) enq
    omega
  rw [hrec]
  simp only [if_true]



/-- Every write event of a run carries nonempty rst content: the loop only
calls `write_to_rst_file` under `if rst_content:`. -/

lemma traverseF_content_ne (g : Graph n) :
    ∀ (f : Nat) (q : List (Fin n × Nat)) (enq : List (Fin n)),
      ∀ d ∈ traverseF g f q enq, d.content ≠ "" := by
  intro f
  induction f with
  | zero =>
    intro q enq d hd
    simp [traverseF] at hd
  | succ f ih =>
    intro q enq d hd
    cases q with
    | nil => simp [traverseF] at hd
    | cons hdq queue =>
      obtain ⟨node, level⟩ := hdq
      simp only [traverseF] at hd
      by_cases hn : g.hasName node = false
      · rw [if_pos hn] at hd
        exact ih queue enq d hd
      · rw [if_neg hn] at hd
        by_cases hm : is_documentable_module g node = true
        · rw [if_pos hm] at hd
          by_cases hc : joinWith "\n"
              ((visitChildren g node level (g.attrs node) enq).comps.map Prod.snd ++
                (visitChildren g node level (g.attrs node) enq).mods.map Prod.snd) = ""
          · rw [if_pos hc] at hd
            exact ih _ _ d hd
          · rw [if_neg hc] at hd
            rcases List.mem_cons.mp hd with rfl | hd'
            · exact hc
            · exact ih _ _ d hd'
        · rw [if_neg hm] at hd
          exact ih queue enq d hd

/-- Component identities are documented at most once across a whole run, and
never when they are already in `enqueued_items` at the start. -/

lemma traverseF_docIds_spec (g : Graph n) :
    ∀ (f : Nat) (q : List (Fin n × Nat)) (enq : List (Fin n)),
      (docIds (traverseF g f q enq)).Nodup ∧
      ∀ i ∈ docIds (traverseF g f q enq), i ∉ enq := by
  intro f
  induction f with
  | zero =>
    intro q enq
    constructor <;> simp [traverseF, docIds]
  | succ f ih =>
    intro q enq
    cases q with
    | nil => constructor <;> simp [traverseF, docIds]
    | cons hdq queue =>
      obtain ⟨node, level⟩ := hdq
      simp only [traverseF]
      by_cases hn : g.hasName node = false
      · rw [if_pos hn]
        exact ih queue enq
      · rw [if_neg hn]
        by_cases hm : is_documentable_module g node = true
        · rw [if_pos hm]
          obtain ⟨ihn, ihf⟩ := ih
            (queue ++ (visitChildren g node level (g.attrs node) enq).mods.map
              (fun m => (m.1, level + 1)))
            (visitChildren g node level (g.attrs node) enq).enq
          have hmono := visitChildren_enq_mono g node level (g.attrs node) enq
          by_cases hc : joinWith "\n"
              ((visitChildren g node level (g.attrs node) enq).comps.map Prod.snd ++
                (visitChildren g node level (g.attrs node) enq).mods.map Prod.snd) = ""
          · rw [if_pos hc]
            refine ⟨ihn, fun i hi hienq => ihf i hi (hmono i hienq)⟩
          · rw [if_neg hc]
            obtain ⟨-, hnodup, hfresh⟩ :=
              visitChildren_ids_spec g node level (g.attrs node) enq
            have hcompsub : ((visitChildren g node level (g.attrs node) enq).comps.map
                Prod.fst).Sublist
                ((visitChildren g node level (g.attrs node) enq).comps.map Prod.fst ++
                  (visitChildren g node level (g.attrs node) enq).mods.map Prod.fst) :=
              List.sublist_append_left _ _
            constructor
            · show ((visitChildren g node level (g.attrs node) enq).comps.map Prod.fst ++
                docIds (traverseF g f _ _)).Nodup
              apply List.Nodup.append
              · exact hcompsub.nodup hnodup
              · exact ihn
              · intro a ha hb
                exact ihf a hb (hfresh a (hcompsub.mem ha)).2
            · intro i hi
              rcases List.mem_append.mp hi with hi' | hi'
              · exact (hfresh i (hcompsub.mem hi')).1
              · exact fun hienq => ihf i hi' (hmono i hienq)
        · rw [if_neg hm]
          exact ih queue enq

/-- Depths of the emitted documents are bounded below by any lower bound on
the depths in the queue. -/

lemma traverseF_level_lb (g : Graph n) :
    ∀ (f : Nat) (q : List (Fin n × Nat)) (enq : List (Fin n)) (L : Nat),
      (∀ e ∈ q, L ≤ e.2) → ∀ d ∈ traverseF g f q enq, L ≤ d.level := by
  intro f
  induction f with
  | zero =>
    intro q enq L _ d hd
    simp [traverseF] at hd
  | succ f ih =>
    intro q enq L hq d hd
    cases q with
    | nil => simp [traverseF] at hd
    | cons hdq queue =>
      obtain ⟨node, level⟩ := hdq
      simp only [traverseF] at hd
      have hq' : ∀ e ∈ queue, L ≤ e.2 :=
        fun e he => hq e (List.mem_cons_of_mem _ he)
      by_cases hn : g.hasName node = false
      · rw [if_pos hn] at hd
        exact ih queue enq L hq' d hd
      · rw [if_neg hn] at hd
        by_cases hm : is_documentable_module g node = true
        · rw [if_pos hm] at hd
          have hqq : ∀ e ∈ queue ++ (visitChildren g node level (g.attrs node) enq).mods.map
              (fun m => (m.1, level + 1)), L ≤ e.2 := by
            intro e he
            rcases List.mem_append.mp he with he' | he'
            · exact hq' e he'
            · obtain ⟨m, -, rfl⟩ := List.mem_map.mp he'
              have := hq (node, level) (List.mem_cons_self _ _)
              simp only at this ⊢
              omega
          by_cases hc : joinWith "\n"
              ((visitChildren g node level (g.attrs node) enq).comps.map Prod.snd ++
                (visitChildren g node level (g.attrs node) enq).mods.map Prod.snd) = ""
          · rw [if_pos hc] at hd
            exact ih _ _ L hqq d hd
          · rw [if_neg hc] at hd
            rcases List.mem_cons.mp hd with rfl | hd'
            · exact hq (node, level) (List.mem_cons_self _ _)
            · exact ih _ _ L hqq d hd'
        · rw [if_neg hm] at hd
          exact ih queue enq L hq' d hd



/-- The BFS queue shape invariant: depths are nondecreasing along the queue
and never spread over more than two consecutive values.  It holds for the
seed queue `[(root, 0)]` and is preserved by every loop iteration. -/

lemma pairwise_of_total {α : Type} {R : α → α → Prop} (h : ∀ a b, R a b) :
    ∀ l : List α, List.Pairwise R l := by
  intro l
  induction l with
  | nil => constructor
  | cons a t ih => exact List.Pairwise.cons (fun b _ => h a b) ih

lemma bfsQueueShape_step {node : Fin n} {level : Nat}
    {queue : List (Fin n × Nat)} (ms : List (Fin n × String))
    (h : bfsQueueShape ((node, level) :: queue)) :
    bfsQueueShape (queue ++ ms.map (fun m => (m.1, level + 1))) := by
  rw [bfsQueueShape, List.pairwise_cons] at h
  obtain ⟨hhead, htail⟩ := h
  rw [bfsQueueShape, List.pairwise_append]
  refine ⟨htail, ?_, ?_⟩
  · rw [List.pairwise_map]
    apply pairwise_of_total
    intro a b
    exact ⟨le_refl _, Nat.le_succ _⟩
  · intro a ha b hb
    obtain ⟨m, -, rfl⟩ := List.mem_map.mp hb
    obtain ⟨h1, h2⟩ := hhead a ha
    exact ⟨h2, by omega⟩

lemma bfsQueueShape_tail_lb {node : Fin n} {level : Nat}
    {queue : List (Fin n × Nat)} (h : bfsQueueShape ((node, level) :: queue)) :
    ∀ e ∈ queue ++ (ms : List (Fin n × String)).map (fun m => (m.1, level + 1)),
      level ≤ e.2 := by
  rw [bfsQueueShape, List.pairwise_cons] at h
  intro e he
  rcases List.mem_append.mp he with he' | he'
  · exact (h.1 e he').1
  · obtain ⟨m, -, rfl⟩ := List.mem_map.mp he'
    omega

/-- An identity documented inside a member write event is documented in the
run. -/

lemma docIds_mem {docs : List (ModuleDoc n)} {d : ModuleDoc n} {i : Fin n}
    (hd : d ∈ docs) (hi : i ∈ d.compIds) : i ∈ docIds docs := by
  induction docs with
  | nil => simp at hd
  | cons a t ih =>
    rcases List.mem_cons.mp hd with rfl | hd'
    · exact List.mem_append_left _ hi
    · exact List.mem_append_right _ (ih hd')



/-- Shallowest-visited-path-wins: if `x` is a documentable component not yet
enqueued and the queue satisfies the BFS shape invariant, then the document
in which `x` is emitted sits at a depth no greater than that of any emitted
document whose module has `x` among its public attributes. -/

lemma traverseF_shallowest (g : Graph n) :
    ∀ (f : Nat) (q : List (Fin n × Nat)) (enq : List (Fin n)) (x : Fin n),
      x ∉ enq → is_documentable_component g x = true → bfsQueueShape q →
      ∀ d1 ∈ traverseF g f q enq, ∀ d2 ∈ traverseF g f q enq,
        x ∈ d1.compIds → x ∈ g.attrs d2.nodeId → d1.level ≤ d2.level := by
  intro f
  induction f with
  | zero =>
    intro q enq x _ _ _ d1 hd1
    simp [traverseF] at hd1
  | succ f ih =>
    intro q enq x hxe hxc hq d1 hd1 d2 hd2 hx1 hx2
    cases q with
    | nil => simp [traverseF] at hd1
    | cons hdq queue =>
      obtain ⟨node, level⟩ := hdq
      simp only [traverseF] at hd1 hd2
      by_cases hn : g.hasName node = false
      · rw [if_pos hn] at hd1 hd2
        exact ih queue enq x hxe hxc (List.Pairwise.of_cons hq) d1 hd1 d2 hd2 hx1 hx2
      · rw [if_neg hn] at hd1 hd2
        by_cases hm : is_documentable_module g node = true
        · rw [if_pos hm] at hd1 hd2
          have hq' : bfsQueueShape (queue ++
              (visitChildren g node level (g.attrs node) enq).mods.map
                (fun m => (m.1, level + 1))) :=
            bfsQueueShape_step _ hq
          by_cases hx : x ∈ g.attrs node
          · have hxdoc : x ∈ (visitChildren g node level (g.attrs node) enq).comps.map
                Prod.fst :=
              visitChildren_documents g node level (g.attrs node) enq x hx hxe hxc
            obtain ⟨p, hp, hpfst⟩ := List.mem_map.mp hxdoc
            have hpne : p.2 ≠ "" :=
              ((visitChildren_strings g node level (g.attrs node) enq).1 p hp).2
            have hcne : joinWith "\n"
                ((visitChildren g node level (g.attrs node) enq).comps.map Prod.snd ++
                  (visitChildren g node level (g.attrs node) enq).mods.map Prod.snd) ≠ "" :=
              joinWith_ne_of_mem _ _
                (List.mem_append_left _ (List.mem_map_of_mem Prod.snd hp)) hpne
            rw [if_neg hcne] at hd1 hd2
            have hxenq' : x ∈ (visitChildren g node level (g.attrs node) enq).enq :=
              ((visitChildren_ids_spec g node level (g.attrs node) enq).2.2 x
                (List.mem_append_left _ hxdoc)).2
            rcases List.mem_cons.mp hd1 with rfl | hd1'
            · rcases List.mem_cons.mp hd2 with rfl | hd2'
              · exact le_refl _
              · exact traverseF_level_lb g f _ _ level
                  (bfsQueueShape_tail_lb hq) d2 hd2'
            · exfalso
              exact (traverseF_docIds_spec g f _
                  (visitChildren g node level (g.attrs node) enq).enq).2 x
                (docIds_mem hd1' hx1) hxenq'
          · have hxen' : x ∉ (visitChildren g node level (g.attrs node) enq).enq := by
              intro hmem
              rcases (visitChildren_ids_spec g node level (g.attrs node) enq).1 x hmem
                with h | h
              · exact hxe h
              · exact hx h
            by_cases hc : joinWith "\n"
                ((visitChildren g node level (g.attrs node) enq).comps.map Prod.snd ++
                  (visitChildren g node level (g.attrs node) enq).mods.map Prod.snd) = ""
            · rw [if_pos hc] at hd1 hd2
              exact ih _ _ x hxen' hxc hq' d1 hd1 d2 hd2 hx1 hx2
            · rw [if_neg hc] at hd1 hd2
              rcases List.mem_cons.mp hd1 with rfl | hd1'
              · exfalso
                obtain ⟨p, hp, hpfst⟩ := List.mem_map.mp hx1
                have hpin :=
                  ((visitChildren_strings g node level (g.attrs node) enq).1 p hp).1
                exact hx (hpfst ▸ hpin)
              · rcases List.mem_cons.mp hd2 with rfl | hd2'
                · exact absurd hx2 hx
                · exact ih _ _ x hxen' hxc hq' d1 hd1' d2 hd2' hx1 hx2
        · rw [if_neg hm] at hd1 hd2
          exact ih queue enq x hxe hxc (List.Pairwise.of_cons hq) d1 hd1 d2 hd2 hx1 hx2



/-- Concrete graph: `X` (identity 4) is reachable from the root both as
`gpflow.a.X` (attribute-path depth 2) and as `gpflow.b.c.X` (depth 3), but
`gpflow.a` fails the `do_visit_module` look-ahead because `X.__module__` is
`gpflow.b.c`, so the shallower container is never visited. -/

lemma doVisitScan_iff (g : Graph n) (m : Fin n) (enq : List (Fin n)) :
    ∀ cs : List (Fin n), doVisitScan g m enq cs = true ↔
      ∃ child ∈ cs,
        (is_documentable_module g child = true ∧ child ∉ enq) ∨
        (is_documentable_component g child = true ∧ child ∉ enq ∧
          (strIn "__init__" (g.moduleOf child) = true ∨
            strIn (g.nameOf m) (g.moduleOf child) = true)) := by
  intro cs
  induction cs with
  | nil => simp [doVisitScan]
  | cons child rest ih =>
    by_cases h1 : is_documentable_module g child = true ∧ child ∉ enq
    · simp only [doVisitScan, if_pos h1]
      constructor
      · intro _
        exact ⟨child, List.mem_cons_self _ _, Or.inl h1⟩
      · intro _
        trivial
    · by_cases h2 : is_documentable_component g child = true ∧ child ∉ enq ∧
          (strIn "__init__" (g.moduleOf child) = true ∨
            strIn (g.nameOf m) (g.moduleOf child) = true)
      · simp only [doVisitScan, if_neg h1, if_pos h2]
        constructor
        · intro _
          exact ⟨child, List.mem_cons_self _ _, Or.inr h2⟩
        · intro _
          trivial
      · simp only [doVisitScan, if_neg h1, if_neg h2]
        rw [ih]
        constructor
        · rintro ⟨c, hc, hor⟩
          exact ⟨c, List.mem_cons_of_mem _ hc, hor⟩
        · rintro ⟨c, hc, hor⟩
          rcases List.mem_cons.mp hc with rfl | hc'
          · rcases hor with h | h
            · exact absurd h h1
            · exact absurd h h2
          · exact ⟨c, hc', hor⟩

/-- C4 (amended): `do_visit_module` answers true iff some public attribute is
an unvisited documentable module, or an unvisited documentable component
whose `__module__` string contains `'__init__'` or contains the candidate
module's `__name__` as a substring.  (The source performs substring tests,
not equality with the root package or the candidate module.) -/

lemma getD_map_lt {α β : Type} (f : α → β) (d : α) (d' : β) :
    ∀ (l : List α) (i : Nat), i < l.length → (l.map f).getD i d' = f (l.getD i d) := by
  intro l
  induction l with
  | nil =>
    intro i hi
    simp at hi
  | cons a t ih =>
    intro i hi
    cases i with
    | zero => rfl
    | succ i =>
      rw [List.length_cons] at hi
      simpa using ih i (by omega)

/-- C6: a dispatcher's rendered section is the multidispatch template over
one component block per registered pair, in registration order; block `i`
names pair `i`'s implementation's fully qualified name, and the block
template mentions that name both after `dispatch to -> ` and after
`autofunction:: `. -/

theorem C1_shallowest_visited (n : Nat) (g : Graph n) (q : List (Fin n × Nat))
    (enq : List (Fin n)) (x : Fin n)
    (hx : x ∉ enq) (hc : is_documentable_component g x = true)
    (hq : bfsQueueShape q) :
    ∀ d1 ∈ traverse_module_bfs g q enq, ∀ d2 ∈ traverse_module_bfs g q enq,
      x ∈ d1.compIds → x ∈ g.attrs d2.nodeId → d1.level ≤ d2.level :=
  traverseF_shallowest g _ q enq x hx hc hq

/-- C1 counterexample: `X` (identity 4) is reachable at attribute depth 2
through `gpflow.a` and at depth 3 through `gpflow.b.c`, yet the run documents
it inside `gpflow.b.c` and emits nothing for `gpflow.a` — the shallower
container fails the look-ahead, so the claimed shallowest-path rule is
violated. -/

theorem C1_counterexample :
    (4 : Fin 5) ∈ exGraphAlias.attrs 1 ∧
    (1 : Fin 5) ∈ exGraphAlias.attrs 0 ∧
    is_documentable_module exGraphAlias 1 = true ∧
    is_documentable_component exGraphAlias 4 = true ∧
    (traverse_module_bfs exGraphAlias [(0, 0)] [0]).map
        (fun d => (d.name, d.level, d.compIds.map Fin.val)) =
      [("gpflow", 0, []), ("gpflow.b", 1, []), ("gpflow.b.c", 2, [4])] := by
  decide

/-- C1 witness: in the concrete graph, `x` is documented in `gpflow.m1` at
depth 1 and also re-exported by `gpflow.m2`, emitted at the same depth. -/

theorem C1_witness :
    ((traverse_module_bfs exGraphShallow [(0, 0)] [0]).getD 1
        ⟨0, 0, "", [], ""⟩).level ≤
      ((traverse_module_bfs exGraphShallow [(0, 0)] [0]).getD 2
        ⟨0, 0, "", [], ""⟩).level :=
  C1_shallowest_visited 5 exGraphShallow [(0, 0)] [0] 3 (by decide) (by decide)
    (by simp [bfsQueueShape]) _ (by decide) _ (by decide) (by decide) (by decide)

theorem C2_at_most_once (n : Nat) (g : Graph n) (q : List (Fin n × Nat))
    (enq : List (Fin n)) :
    (docIds (traverse_module_bfs g q enq)).Nodup ∧
    ∀ i ∈ docIds (traverse_module_bfs g q enq), i ∉ enq :=
  traverseF_docIds_spec g _ q enq

/-- C2 witness: the concrete aliased run documents each identity once. -/

theorem C2_witness :
    (docIds (traverse_module_bfs exGraphShallow [(0, 0)] [0])).Nodup ∧
      (3 : Fin 5) ∉ ([0] : List (Fin 5)) :=
  ⟨(C2_at_most_once 5 exGraphShallow [(0, 0)] [0]).1,
    (C2_at_most_once 5 exGraphShallow [(0, 0)] [0]).2 3 (by decide)⟩

/-- C1 (amended): among the modules the traversal actually visits and emits,
the shallowest wins — if component `x` is documented inside `d1` then every
emitted document `d2` whose module has `x` among its public attributes sits
at depth at least `d1.level`.  (The claim as stated — shallowest over all
attribute paths — fails when the shallower container is rejected by the
`do_visit_module` look-ahead; see the counterexample.) -/

theorem C3_component_predicate (n : Nat) (g : Graph n) (m : Fin n) :
    is_documentable_component g m = true ↔
      ((g.kind m = ObjKind.func ∨ g.kind m = ObjKind.cls) ∧
        strIn "gpflow" (g.moduleOf m) = true ∧ g.moduleOf m ∉ IGNORE_MODULES) ∨
      (g.kind m ≠ ObjKind.func ∧ g.kind m ≠ ObjKind.cls ∧
        g.typeName m = "Dispatcher") := by
  cases hk : g.kind m <;>
    simp [is_documentable_component, hk, Bool.and_eq_true, decide_eq_true_eq]

/-- C3 counterexample: for a class whose metaclass is named `Dispatcher` but
whose declaring module is outside the library namespace, the claimed
equivalence (with an unguarded Dispatcher disjunct) is false: the code
answers `false` although the object's run-time type is named `Dispatcher`. -/

theorem C3_counterexample :
    ¬ (is_documentable_component exGraphClassDispatcher 0 = true ↔
      (((exGraphClassDispatcher.kind 0 = ObjKind.func ∨
          exGraphClassDispatcher.kind 0 = ObjKind.cls) ∧
        strIn "gpflow" (exGraphClassDispatcher.moduleOf 0) = true ∧
        exGraphClassDispatcher.moduleOf 0 ∉ IGNORE_MODULES) ∨
        exGraphClassDispatcher.typeName 0 = "Dispatcher")) := by
  decide

/-- C3 witness: the amended equivalence at a concrete documentable function. -/

theorem C3_witness : is_documentable_component exGraphShallow 3 = true :=
  (C3_component_predicate 5 exGraphShallow 3).mpr
    (Or.inl ⟨Or.inl (by decide), by decide, by decide⟩)

/-- C10 (amended): for objects that are neither functions nor classes, the
`Dispatcher` type-name test makes them documentable unconditionally — neither
the namespace-containment check nor `IGNORE_MODULES` is consulted. -/

theorem C4_do_visit_condition (n : Nat) (g : Graph n) (m : Fin n)
    (enq : List (Fin n)) :
    do_visit_module g m enq = true ↔
      ∃ child ∈ g.attrs m,
        (is_documentable_module g child = true ∧ child ∉ enq) ∨
        (is_documentable_component g child = true ∧ child ∉ enq ∧
          (strIn "__init__" (g.moduleOf child) = true ∨
            strIn (g.nameOf m) (g.moduleOf child) = true)) :=
  doVisitScan_iff g m enq (g.attrs m)

/-- C4 counterexample: `gpflow.kernels` re-exports a function declared in the
root package `gpflow`.  The claim's reading — declaring module equal to the
root package or to the candidate module — predicts `true`, but the code's
substring tests (`'__init__' in __module__`, `module.__name__ in __module__`)
both fail, and `do_visit_module` answers `false`. -/

theorem C4_counterexample :
    ¬ (do_visit_module exGraphRootExport 0 [] = true ↔
      ∃ child ∈ exGraphRootExport.attrs 0,
        (is_documentable_module exGraphRootExport child = true ∧
          child ∉ ([] : List (Fin 2))) ∨
        (is_documentable_component exGraphRootExport child = true ∧
          child ∉ ([] : List (Fin 2)) ∧
          (exGraphRootExport.moduleOf child = "gpflow" ∨
            exGraphRootExport.moduleOf child = exGraphRootExport.nameOf 0))) := by
  decide

/-- C4 witness: the amended equivalence at a concrete module with an
unvisited component of its own. -/

theorem C4_witness : do_visit_module exGraphShallow 1 [] = true :=
  (C4_do_visit_condition 5 exGraphShallow 1 []).mpr
    ⟨3, by decide, Or.inr ⟨by decide, by decide, Or.inr (by decide)⟩⟩



/-- C7: a queue entry whose node lacks `__name__` is skipped silently — the
run produces exactly the write events it would produce had the entry never
been dequeued, for every continuation of the queue and visited set. -/

theorem C5_write_iff_content (n : Nat) (g : Graph n) (node : Fin n)
    (level : Nat) (queue : List (Fin n × Nat)) (enq : List (Fin n))
    (hn : g.hasName node = true) (hm : is_documentable_module g node = true) :
    ((visitChildren g node level (g.attrs node) enq).comps = [] ∧
      (visitChildren g node level (g.attrs node) enq).mods = [] →
      traverse_module_bfs g ((node, level) :: queue) enq =
        traverse_module_bfs g queue enq) ∧
    ((visitChildren g node level (g.attrs node) enq).comps ≠ [] ∨
      (visitChildren g node level (g.attrs node) enq).mods ≠ [] →
      joinWith "\n"
        ((visitChildren g node level (g.attrs node) enq).comps.map Prod.snd ++
          (visitChildren g node level (g.attrs node) enq).mods.map Prod.snd) ≠ "" ∧
      traverse_module_bfs g ((node, level) :: queue) enq =
        ⟨node, level, g.nameOf node,
          (visitChildren g node level (g.attrs node) enq).comps.map Prod.fst,
          joinWith "\n"
            ((visitChildren g node level (g.attrs node) enq).comps.map Prod.snd ++
              (visitChildren g node level (g.attrs node) enq).mods.map Prod.snd)⟩ ::
          traverse_module_bfs g
            (queue ++ (visitChildren g node level (g.attrs node) enq).mods.map
              (fun m => (m.1, level + 1)))
            (visitChildren g node level (g.attrs node) enq).enq) := by
  constructor
  · rintro ⟨hce, hme⟩
    have henq := visitChildren_nil_of_empty g node level (g.attrs node) enq hce hme
    rw [traverse_cons_module g node level queue enq hn hm, hce, hme, henq]
    simp [joinWith]
  · intro hne
    have hcne : joinWith "\n"
        ((visitChildren g node level (g.attrs node) enq).comps.map Prod.snd ++
          (visitChildren g node level (g.attrs node) enq).mods.map Prod.snd) ≠ "" := by
      rcases hne with h | h
      · obtain ⟨p, hp⟩ := List.exists_mem_of_ne_nil _ h
        exact joinWith_ne_of_mem _ _
          (List.mem_append_left _ (List.mem_map_of_mem Prod.snd hp))
          ((visitChildren_strings g node level (g.attrs node) enq).1 p hp).2
      · obtain ⟨p, hp⟩ := List.exists_mem_of_ne_nil _ h
        exact joinWith_ne_of_mem _ _
          (List.mem_append_right _ (List.mem_map_of_mem Prod.snd hp))
          ((visitChildren_strings g node level (g.attrs node) enq).2 p hp)
    refine ⟨hcne, ?_⟩
    rw [traverse_cons_module g node level queue enq hn hm, if_neg hcne]

/-- C5 witness: the root of the concrete graph collects entries, so its
content is nonempty. -/

theorem C5_witness :
    joinWith "\n"
      ((visitChildren exGraphShallow 0 0 (exGraphShallow.attrs 0) [0]).comps.map Prod.snd ++
        (visitChildren exGraphShallow 0 0 (exGraphShallow.attrs 0) [0]).mods.map Prod.snd) ≠ "" :=
  ((C5_write_iff_content 5 exGraphShallow 0 0 [] [0] (by decide) (by decide)).2
    (Or.inr (by decide))).1

/-- C2: across one whole run no component identity is documented twice, and
identities already in `enqueued_items` at the start are never documented. -/

theorem C6_multidispatch_blocks (n : Nat) (g : Graph n) (md m : Fin n)
    (lvl : String) :
    get_multidispatch_string g md m lvl =
      SPHINX_MULTIDISPATCH_STRING (g.nameOf m ++ "." ++ g.dispName md) lvl
        (joinWith "\n" (mdBlocks g md m)) ∧
    (mdBlocks g md m).length = (g.dispFuncs md).length ∧
    (∀ i : Nat, i < (g.dispFuncs md).length →
      (mdBlocks g md m).getD i "" =
        SPHINX_MULTIDISPATCH_COMPONENT_STRING
          (g.nameOf m ++ "." ++ g.dispName md)
          (joinWith ", " ((g.dispFuncs md).getD i ([], "", "")).1)
          (((g.dispFuncs md).getD i ([], "", "")).2.1 ++ "." ++
            ((g.dispFuncs md).getD i ([], "", "")).2.2)) ∧
    (∀ d a t : String, SPHINX_MULTIDISPATCH_COMPONENT_STRING d a t =
      "\n.. code-block:: python\n\n    " ++ d ++ "( " ++ a ++
        " )\n    # dispatch to -> " ++ t ++
        "(...)\n\n\n.. autofunction:: " ++ t ++ "\n") := by
  refine ⟨rfl, List.length_map _ _, ?_, fun d a t => rfl⟩
  intro i hi
  rw [mdBlocks, getD_map_lt _ ([], "", "") "" _ i hi]

/-- C6 witness: the concrete dispatcher with two registered pairs. -/

theorem C6_witness :
    (mdBlocks exGraphDispatch 1 0).length =
      (exGraphDispatch.dispFuncs 1).length ∧
    (mdBlocks exGraphDispatch 1 0).getD 0 "" =
      SPHINX_MULTIDISPATCH_COMPONENT_STRING
        (exGraphDispatch.nameOf 0 ++ "." ++ exGraphDispatch.dispName 1)
        (joinWith ", " ((exGraphDispatch.dispFuncs 1).getD 0 ([], "", "")).1)
        (((exGraphDispatch.dispFuncs 1).getD 0 ([], "", "")).2.1 ++ "." ++
          ((exGraphDispatch.dispFuncs 1).getD 0 ([], "", "")).2.2) :=
  ⟨(C6_multidispatch_blocks 2 exGraphDispatch 1 0 "======").2.1,
    (C6_multidispatch_blocks 2 exGraphDispatch 1 0 "======").2.2.1 0 (by decide)⟩



/-- C8: two runs over the same graph differ only in the date inserted into
each file: file paths agree pairwise, and each pair of contents shares a
common prefix and suffix around the respective date string. -/

theorem C7_missing_name_skipped (n : Nat) (g : Graph n) (node : Fin n)
    (level : Nat) (queue : List (Fin n × Nat)) (enq : List (Fin n))
    (h : g.hasName node = false) :
    traverse_module_bfs g ((node, level) :: queue) enq =
      traverse_module_bfs g queue enq :=
  traverse_cons_noname g node level queue enq h

/-- C7 witness: skipping the concrete nameless node. -/

theorem C7_witness :
    traverse_module_bfs exGraphNoName [(1, 0), (0, 0)] [] =
      traverse_module_bfs exGraphNoName [(0, 0)] [] :=
  C7_missing_name_skipped 2 exGraphNoName 1 0 [(0, 0)] [] (by decide)

/-- C9: the underline is drawn from `RST_LEVEL_SYMBOLS` indexed by depth: the
list has six symbols, below six the indexing succeeds and the renderers use
six copies of the depth-th symbol, and from six upwards the index access has
no defined result (`get?` is `none`; the source raises `IndexError`). -/

theorem C8_date_only_difference (n : Nat) (g : Graph n) (q : List (Fin n × Nat))
    (enq : List (Fin n)) (d1 d2 : String) :
    List.Forall₂ (fun a b : String × String => a.1 = b.1 ∧
      ∃ pre post : String, a.2 = pre ++ d1 ++ post ∧ b.2 = pre ++ d2 ++ post)
      (renderRun g d1 q enq) (renderRun g d2 q enq) := by
  unfold renderRun
  generalize traverse_module_bfs g q enq = docs
  induction docs with
  | nil => constructor
  | cons d t ih =>
    exact List.Forall₂.cons
      ⟨rfl, sphinxFilePre d.name, sphinxFilePost d.content, rfl, rfl⟩ ih

/-- C5: a processed documentable module produces a write event iff its
classification loop collected at least one component or module entry; with
no entries the run continues exactly as if the module had not been dequeued,
and with entries the write event carries the nonempty concatenated content. -/

theorem C9_heading_symbols :
    RST_LEVEL_SYMBOLS.length = 6 ∧
    (∀ (l : Nat) (h : l < RST_LEVEL_SYMBOLS.length),
      rstLevelUnderline l =
        String.mk (List.replicate 6 (RST_LEVEL_SYMBOLS.get ⟨l, h⟩))) ∧
    (∀ l : Nat, RST_LEVEL_SYMBOLS.length ≤ l → RST_LEVEL_SYMBOLS.get? l = none) ∧
    (∀ (m : Nat) (g : Graph m) (mo : Fin m) (l : Nat)
      (h : l < RST_LEVEL_SYMBOLS.length),
      get_module_rst_string g mo l =
        SPHINX_INCLUDE_MODULE_STRING (g.nameOf mo)
          (String.mk (List.replicate 6 (RST_LEVEL_SYMBOLS.get ⟨l, h⟩)))
          (lastDotComponent (g.nameOf mo))) ∧
    (∀ (m : Nat) (g : Graph m) (mo c : Fin m) (l : Nat)
      (h : l < RST_LEVEL_SYMBOLS.length),
      g.kind c = ObjKind.cls →
      get_component_rst_string g mo c l =
        SPHINX_CLASS_STRING (g.nameOf mo ++ "." ++ g.nameOf c)
          (String.mk (List.replicate 6 (RST_LEVEL_SYMBOLS.get ⟨l, h⟩)))) := by
  have hU : ∀ (l : Nat) (h : l < RST_LEVEL_SYMBOLS.length),
      rstLevelUnderline l =
        String.mk (List.replicate 6 (RST_LEVEL_SYMBOLS.get ⟨l, h⟩)) := by
    intro l h
    have h6 : l < 6 := h
    interval_cases l <;> rfl
  refine ⟨rfl, hU, ?_, ?_, ?_⟩
  · intro l hl
    exact List.get?_eq_none.mpr hl
  · intro m g mo l h
    show SPHINX_INCLUDE_MODULE_STRING (g.nameOf mo) (rstLevelUnderline l)
      (lastDotComponent (g.nameOf mo)) = _
    rw [hU l h]
  · intro m g mo c l h hc
    have hcs : get_component_rst_string g mo c l =
        SPHINX_CLASS_STRING (g.nameOf mo ++ "." ++ g.nameOf c)
          (rstLevelUnderline l) := by
      simp [get_component_rst_string, hc]
    rw [hcs, hU l h]

/-- C9 witness: depth 2 renders with six tildes, and index 6 is undefined. -/

theorem C9_witness :
    rstLevelUnderline 2 = "~~~~~~" ∧ RST_LEVEL_SYMBOLS.get? 6 = none :=
  ⟨(C9_heading_symbols.2.1 2 (by decide)).trans (by decide),
    C9_heading_symbols.2.2.1 6 (by decide)⟩

theorem C10_dispatcher_unconditional (n : Nat) (g : Graph n) (m : Fin n)
    (hf : g.kind m ≠ ObjKind.func) (hc : g.kind m ≠ ObjKind.cls)
    (hd : g.typeName m = "Dispatcher") :
    is_documentable_component g m = true := by
  cases hk : g.kind m <;>
    simp_all [is_documentable_component, hk]

/-- C10 witness: a Dispatcher instance declared in an excluded dispatch
module is still documentable. -/

theorem C10_witness : is_documentable_component exGraphDispatch 1 = true :=
  C10_dispatcher_unconditional 2 exGraphDispatch 1 (by decide) (by decide) (by decide)

/-- C10 counterexample: the claim quantifies over every object whose run-time
type is named `Dispatcher`; a class with a metaclass of that name, declared
in an excluded module, is nevertheless rejected by the code, because the
`isclass` branch (with its namespace and exclusion checks) takes precedence. -/

theorem C10_counterexample :
    exGraphIgnoredDispatcher.typeName 0 = "Dispatcher" ∧
      is_documentable_component exGraphIgnoredDispatcher 0 = false := by
  decide

end GenRst
